import Mathlib

/-!
Shallow embedding of the interval-remapping pipeline of `src/2023/day5`
(`src/lib.rs` and `src/utils.rs`).

Conventions of the embedding:
* `u64` values are modelled as `ℕ`; every subtraction performed by the Rust
  code is either `saturating_sub` or guarded so that it cannot underflow, so
  truncated `ℕ` subtraction agrees with the `u64` operation at every point
  the code reaches.
* Rust's `Range<u64>` becomes the structure `Range64` with fields `start`
  and `stop` (Rust's `end`, which is a Lean keyword).
* Rust's stable `sort_by(|a, b| a.start.cmp(&b.start))` becomes a stable
  insertion sort on the `start` field (`sortByStart`).
* Functions that can panic (`.min().unwrap()`) return `Option ℕ`, with
  `none` modelling the panic.
-/

/-- Rust `Range<u64>`: the half-open interval `[start, stop)`. -/
structure Range64 where
  start : ℕ
  stop : ℕ
deriving DecidableEq, Repr

/-- `Overlap::overlaps` from `src/utils.rs`:
`self.start <= other.end && other.start <= self.end`. -/
def Range64.overlaps (a b : Range64) : Bool :=
  a.start ≤ b.stop && b.start ≤ a.stop

/-- `Overlap::merge` from `src/utils.rs`:
`self.start.min(other.start)..self.end.max(other.end)`. -/
def Range64.merge (a b : Range64) : Range64 :=
  ⟨min a.start b.start, max a.stop b.stop⟩

/-- The body of the fold in `MergeOverlap::merge_overlap` (src/lib.rs lines
14-24): either merge the incoming range into the accumulator's last element
(when they `overlaps`) or push it. -/
def mergeStep (acc : List Range64) (r : Range64) : List Range64 :=
  match acc.getLast? with
  | some last => if last.overlaps r then acc.dropLast ++ [last.merge r] else acc ++ [r]
  | none => acc ++ [r]

/-- `MergeOverlap::merge_overlap` for `Vec<Range<u64>>` from `src/lib.rs`. -/
def mergeOverlap (l : List Range64) : List Range64 :=
  l.foldl mergeStep []

/-- `RangeMap` from `src/lib.rs`: a destination range and a source range. -/
structure RangeMap where
  dest : Range64
  src : Range64
deriving DecidableEq, Repr

/-- `RangeMap::lookup`: `Some(dest.start + (value - src.start))` when
`src.contains(&value)`, else `None`. -/
def RangeMap.lookup (m : RangeMap) (value : ℕ) : Option ℕ :=
  if m.src.start ≤ value ∧ value < m.src.stop then
    some (m.dest.start + (value - m.src.start))
  else
    none

/-- Rust's stable `sort_by(|a, b| a.start.cmp(&b.start))`, modelled by a
stable insertion sort on `start`. -/
def sortByStart (l : List Range64) : List Range64 :=
  l.insertionSort (fun a b => a.start ≤ b.start)

/-- `RangeMap::map_onto` from `src/lib.rs`. The four overlap cases are
exhaustive (the Rust `unreachable!` arm never fires): once the first three
conditions fail, `src.start <= input.start && src.end <= input.end` is
forced, so it is the final `else` here. `saturating_sub` and the guarded
`u64` subtractions both coincide with truncated `ℕ` subtraction. -/
def RangeMap.mapOnto (m : RangeMap) (input : Range64) : Option (List Range64) :=
  if ¬ (m.src.overlaps input = true) then
    none
  else
    let results :=
      if m.src.start ≤ input.start ∧ m.src.stop ≥ input.stop then
        -- input within self
        let startDiff := input.start - m.src.start
        let endDiff := m.src.stop - input.stop
        [⟨m.dest.start + startDiff, m.dest.stop - endDiff⟩]
      else if m.src.start ≥ input.start ∧ m.src.stop ≤ input.stop then
        -- self within input
        [⟨input.start, m.src.start⟩, ⟨m.dest.start, m.dest.stop⟩, ⟨m.src.stop, input.stop⟩]
      else if m.src.start ≥ input.start ∧ m.src.stop ≥ input.stop then
        -- input starts before self
        let diff := input.stop - m.src.start
        [⟨input.start, m.src.start⟩, ⟨m.dest.start, m.dest.start + diff⟩]
      else
        -- self starts before input
        let diff := m.src.stop - input.start
        [⟨m.dest.stop - diff, m.dest.stop⟩, ⟨m.src.stop, input.stop⟩]
    some (mergeOverlap (sortByStart results))

/-- The per-interval body of the fold in
`Almanac2::lowest_location_that_needs_a_seed` (src/lib.rs lines 375-388):
apply every `RangeMap` of one stage to `range` with `map_onto`, flatten,
and either fall back to `{range}` when nothing overlapped or sort and
`merge_overlap` the pieces. -/
def stageApply (maps : List RangeMap) (range : Range64) : List Range64 :=
  let results := (maps.filterMap (fun m => m.mapOnto range)).flatten
  if results.isEmpty then [range] else mergeOverlap (sortByStart results)

/-- `Almanac` from `src/lib.rs`: a seed list and the seven stage maps. -/
structure Almanac where
  seeds : List ℕ
  seedToSoilMap : List RangeMap
  soilToFertilizerMap : List RangeMap
  fertilizerToWaterMap : List RangeMap
  waterToLightMap : List RangeMap
  lightToTemperatureMap : List RangeMap
  temperatureToHumidityMap : List RangeMap
  humidityToLocationMap : List RangeMap
deriving Repr

/-- `Almanac2` from `src/lib.rs`: seed intervals and the seven stage maps. -/
structure Almanac2 where
  seeds : List Range64
  seedToSoilMap : List RangeMap
  soilToFertilizerMap : List RangeMap
  fertilizerToWaterMap : List RangeMap
  waterToLightMap : List RangeMap
  lightToTemperatureMap : List RangeMap
  temperatureToHumidityMap : List RangeMap
  humidityToLocationMap : List RangeMap
deriving Repr

/-- `Almanac2::maps`: the pipeline as an ordered list of stages. -/
def Almanac2.maps (a : Almanac2) : List (List RangeMap) :=
  [a.seedToSoilMap, a.soilToFertilizerMap, a.fertilizerToWaterMap, a.waterToLightMap,
    a.lightToTemperatureMap, a.temperatureToHumidityMap, a.humidityToLocationMap]

/-- The fold of `Almanac2::lowest_location_that_needs_a_seed` (lines
370-391): push the seed interval set through every stage in order. -/
def Almanac2.finalRanges (a : Almanac2) : List Range64 :=
  a.maps.foldl (fun ranges maps => ranges.flatMap (fun r => stageApply maps r)) a.seeds

/-- `Almanac2::lowest_location_that_needs_a_seed` (lines 369-400): sort the
final interval set, keep only intervals whose `start != 0`, and take the
minimum start. `none` models the `.min().unwrap()` panic on an empty
filtered set. -/
def Almanac2.lowestLocationThatNeedsASeed (a : Almanac2) : Option ℕ :=
  let locations := sortByStart a.finalRanges
  ((locations.filter (fun r => r.start != 0)).map Range64.start).min?

/-- One per-stage point map of `Almanac::lowest_location_that_needs_a_seed`:
`maps.iter().map(|map| map.lookup(v)).fold(None, |a, b| a.or(b)).unwrap_or(v)`. -/
def pointStage (maps : List RangeMap) (v : ℕ) : ℕ :=
  ((maps.map (fun m => m.lookup v)).foldl (fun a b => a.or b) none).getD v

/-- `Almanac::lowest_location_that_needs_a_seed` (lines 250-304): map each
seed through the seven stages point-wise and take the minimum. `none`
models the `.min().unwrap()` panic on an empty seed list. -/
def Almanac.lowestLocationThatNeedsASeed (a : Almanac) : Option ℕ :=
  (a.seeds.map (fun seed =>
    pointStage a.humidityToLocationMap
      (pointStage a.temperatureToHumidityMap
        (pointStage a.lightToTemperatureMap
          (pointStage a.waterToLightMap
            (pointStage a.fertilizerToWaterMap
              (pointStage a.soilToFertilizerMap
                (pointStage a.seedToSoilMap seed)))))))).min?

/-- `value.seeds.windows(2).step_by(2)` from `From<Almanac> for Almanac2`:
the windows at even indices are exactly the consecutive disjoint pairs
`(s0, s1), (s2, s3), ...`, with an odd trailing element dropped. -/
def pairUp : List ℕ → List (ℕ × ℕ)
  | a :: b :: rest => (a, b) :: pairUp rest
  | _ => []

/-- The seed-interval construction of `From<Almanac> for Almanac2` (lines
321-332): each pair `(start, len)` becomes `start..start+len`, then the
result is sorted by `start`. -/
def seedRanges (seeds : List ℕ) : List Range64 :=
  sortByStart ((pairUp seeds).map (fun p => ⟨p.1, p.1 + p.2⟩))

/-- `From<Almanac> for Almanac2` (lines 319-345). -/
def Almanac.toAlmanac2 (a : Almanac) : Almanac2 :=
  { seeds := seedRanges a.seeds
    seedToSoilMap := a.seedToSoilMap
    soilToFertilizerMap := a.soilToFertilizerMap
    fertilizerToWaterMap := a.fertilizerToWaterMap
    waterToLightMap := a.waterToLightMap
    lightToTemperatureMap := a.lightToTemperatureMap
    temperatureToHumidityMap := a.temperatureToHumidityMap
    humidityToLocationMap := a.humidityToLocationMap }

/-- `RangeMap::from_str` on an already-tokenised line (the string-splitting
and integer parsing are elided): the first three numbers become
`dest_start..dest_start+length` and `source_start..source_start+length`
with no further validation; `none` models the `unwrap` panic when fewer
than three numbers are present. -/
def RangeMap.fromTokens : List ℕ → Option RangeMap
  | destStart :: sourceStart :: length :: _ =>
      some ⟨⟨destStart, destStart + length⟩, ⟨sourceStart, sourceStart + length⟩⟩
  | _ => none

-- Fidelity checks mirroring the repository's own unit tests
-- (`range_map_tests` in src/lib.rs): `"10 20 10"` is dest 10..20, src 20..30.
example : RangeMap.mapOnto ⟨⟨10, 20⟩, ⟨20, 30⟩⟩ ⟨1, 5⟩ = none := by decide
example : RangeMap.mapOnto ⟨⟨10, 20⟩, ⟨20, 30⟩⟩ ⟨22, 28⟩ = some [⟨12, 18⟩] := by decide
example : RangeMap.mapOnto ⟨⟨10, 20⟩, ⟨20, 30⟩⟩ ⟨8, 32⟩ = some [⟨8, 20⟩, ⟨30, 32⟩] := by decide
example : RangeMap.mapOnto ⟨⟨10, 20⟩, ⟨20, 30⟩⟩ ⟨18, 22⟩ = some [⟨10, 12⟩, ⟨18, 20⟩] := by decide
example : RangeMap.mapOnto ⟨⟨10, 20⟩, ⟨20, 30⟩⟩ ⟨28, 32⟩ = some [⟨18, 20⟩, ⟨30, 32⟩] := by decide

-- `test_lookup`: `"0 10 10"` is dest 0..10, src 10..20.
example : RangeMap.lookup ⟨⟨0, 10⟩, ⟨10, 20⟩⟩ 0 = none := by decide
example : RangeMap.lookup ⟨⟨0, 10⟩, ⟨10, 20⟩⟩ 10 = some 0 := by decide
example : RangeMap.lookup ⟨⟨0, 10⟩, ⟨10, 20⟩⟩ 19 = some 9 := by decide
example : RangeMap.lookup ⟨⟨0, 10⟩, ⟨10, 20⟩⟩ 20 = none := by decide

instance : IsTotal Range64 (fun a b => a.start ≤ b.start) :=
  ⟨fun a b => Nat.le_total a.start b.start⟩

instance : IsTrans Range64 (fun a b => a.start ≤ b.start) :=
  ⟨fun _ _ _ h h' => Nat.le_trans h h'⟩

/-- Claim C4, counterexample: on the touching intervals `[0,5)` and `[5,10)`
the code's `overlaps` returns `true`, while the claimed characterisation
`a.start < b.end ∧ b.start < a.end` is false there. -/
theorem c4_overlaps_counterexample :
    Range64.overlaps ⟨0, 5⟩ ⟨5, 10⟩ = true ∧
    ¬ (Range64.start ⟨0, 5⟩ < Range64.stop ⟨5, 10⟩ ∧
        Range64.start ⟨5, 10⟩ < Range64.stop ⟨0, 5⟩) := by
  decide

/-- Claim C4, amended: `overlaps a b` is true iff
`a.start ≤ b.end ∧ b.start ≤ a.end`; in particular two touching well-formed
intervals (`a.end = b.start`) DO overlap under this predicate. -/
theorem c4_overlaps_spec (a b : Range64) :
    (a.overlaps b = true ↔ a.start ≤ b.stop ∧ b.start ≤ a.stop) ∧
    (a.start ≤ a.stop → b.start ≤ b.stop → a.stop = b.start → a.overlaps b = true) := by
  constructor
  · simp [Range64.overlaps]
  · intro ha hb ht
    simp only [Range64.overlaps, Bool.and_eq_true, decide_eq_true_eq]
    omega

/-- Witness for the amended Claim C4 at the touching pair `[0,5)`, `[5,10)`. -/
theorem c4_overlaps_spec_witness :
    Range64.overlaps ⟨0, 5⟩ ⟨5, 10⟩ = true :=
  (c4_overlaps_spec ⟨0, 5⟩ ⟨5, 10⟩).2 (by decide) (by decide) (by decide)

/-- Claim C8: `RangeMap::lookup` returns
`some (dest.start + (v - src.start))` — equivalently `some (v + offset)`
with `offset = dest.start - src.start` over `ℤ` — exactly when `v` lies in
the source interval, and `none` otherwise. -/
theorem c8_lookup_spec (m : RangeMap) (v : ℕ) :
    (m.src.start ≤ v ∧ v < m.src.stop →
      m.lookup v = some (m.dest.start + (v - m.src.start)) ∧
      ∀ w, m.lookup v = some w →
        (w : ℤ) = (v : ℤ) + ((m.dest.start : ℤ) - (m.src.start : ℤ))) ∧
    (¬ (m.src.start ≤ v ∧ v < m.src.stop) → m.lookup v = none) := by
  constructor
  · intro h
    refine ⟨by simp [RangeMap.lookup, h], ?_⟩
    intro w hw
    simp only [RangeMap.lookup, if_pos h, Option.some.injEq] at hw
    omega
  · intro h
    simp [RangeMap.lookup, h]

/-- Witness for Claim C8: the rule `"0 10 10"` (dest `0..10`, src `10..20`)
maps 15 to 5 and rejects 25. -/
theorem c8_lookup_spec_witness :
    RangeMap.lookup ⟨⟨0, 10⟩, ⟨10, 20⟩⟩ 15 = some 5 ∧
    RangeMap.lookup ⟨⟨0, 10⟩, ⟨10, 20⟩⟩ 25 = none :=
  ⟨((c8_lookup_spec ⟨⟨0, 10⟩, ⟨10, 20⟩⟩ 15).1 (by decide)).1,
    (c8_lookup_spec ⟨⟨0, 10⟩, ⟨10, 20⟩⟩ 25).2 (by decide)⟩

/-- Claim C7: a stage none of whose rules' sources `overlaps` the input
interval (in particular a stage with zero rules) maps it to `{I}`
unchanged: every `map_onto` returns `None`, so the fallback branch yields
the singleton. -/
theorem c7_identity_stage (maps : List RangeMap) (i : Range64)
    (h : ∀ m ∈ maps, m.src.overlaps i = false) :
    stageApply maps i = [i] := by
  have hfm : maps.filterMap (fun m => m.mapOnto i) = [] := by
    induction maps with
    | nil => rfl
    | cons m ms ih =>
      have hm : m.src.overlaps i = false := h m (by simp)
      have hnone : m.mapOnto i = none := by
        simp [RangeMap.mapOnto, hm]
      rw [List.filterMap_cons, hnone]
      exact ih fun m' hm' => h m' (by simp [hm'])
  simp [stageApply, hfm]

/-- Witness for Claim C7: a disjoint one-rule stage and the empty stage both
leave `[0,10)` untouched. -/
theorem c7_identity_stage_witness :
    stageApply [⟨⟨100, 110⟩, ⟨50, 60⟩⟩] ⟨0, 10⟩ = [⟨0, 10⟩] ∧
    stageApply [] ⟨0, 10⟩ = [⟨0, 10⟩] :=
  ⟨c7_identity_stage [⟨⟨100, 110⟩, ⟨50, 60⟩⟩] ⟨0, 10⟩ (by decide),
    c7_identity_stage [] ⟨0, 10⟩ (by decide)⟩

/-- Helper for Claim C9: folding `mergeStep` over a list whose consecutive
members are separated by a genuine gap appends every member unchanged. -/
theorem foldl_mergeStep_of_gaps (l : List Range64) (pre : List Range64) (last : Range64)
    (h : List.Chain' (fun a b => a.stop < b.start) (last :: l)) :
    l.foldl mergeStep (pre ++ [last]) = pre ++ last :: l := by
  induction l generalizing pre last with
  | nil => simp
  | cons r rest ih =>
    rw [List.chain'_cons] at h
    obtain ⟨hr, hrest⟩ := h
    have hov : last.overlaps r = false := by
      simp only [Range64.overlaps, Bool.and_eq_false_iff, decide_eq_false_iff_not]
      omega
    have hstep : mergeStep (pre ++ [last]) r = (pre ++ [last]) ++ [r] := by
      simp [mergeStep, hov]
    rw [List.foldl_cons, hstep, ih (pre ++ [last]) r hrest]
    simp

/-- Claim C9: on a normalized interval set (pairwise separated members,
sorted by start, none empty) `merge_overlap` is the identity, i.e.
normalization is idempotent. -/
theorem c9_mergeOverlap_idempotent (l : List Range64)
    (hnorm : List.Pairwise (fun a b => a.stop < b.start) l)
    (hne : ∀ r ∈ l, r.start < r.stop) :
    mergeOverlap l = l := by
  cases l with
  | nil => rfl
  | cons r rest =>
    have hchain : List.Chain' (fun a b : Range64 => a.stop < b.start) (r :: rest) :=
      hnorm.chain'
    have h0 : mergeStep [] r = [r] := rfl
    rw [mergeOverlap, List.foldl_cons, h0]
    simpa using foldl_mergeStep_of_gaps rest [] r hchain

/-- Witness for Claim C9: the normalized set `{[0,5), [6,8), [9,12)}` is a
fixed point of `merge_overlap`. -/
theorem c9_mergeOverlap_idempotent_witness :
    mergeOverlap [⟨0, 5⟩, ⟨6, 8⟩, ⟨9, 12⟩] = [⟨0, 5⟩, ⟨6, 8⟩, ⟨9, 12⟩] :=
  c9_mergeOverlap_idempotent [⟨0, 5⟩, ⟨6, 8⟩, ⟨9, 12⟩] (by decide) (by decide)

/-- Claim C5 fails on the code: the stage holding the single rule
dest `100..110`, src `0..10` applied to the input `[0,20)` (boundary
equality `C.start = I.start`) keeps the empty flanking fragment `[0,0)`
in its output instead of dropping it. -/
theorem c5_empty_fragment_retained :
    stageApply [⟨⟨100, 110⟩, ⟨0, 10⟩⟩] ⟨0, 20⟩ = [⟨0, 0⟩, ⟨10, 20⟩, ⟨100, 110⟩] ∧
    (stageApply [⟨⟨100, 110⟩, ⟨0, 10⟩⟩] ⟨0, 20⟩).any (fun r => r.start == r.stop) = true := by
  decide

/-- Claim C3 fails on the code: for the stage with the two disjoint rules
dest `100..110`/src `0..10` and dest `200..210`/src `10..20` and the input
`[0,20)`, the split output covers the point 5, yet no point of the input
maps to 5 under the point-wise image of the stage (the point-wise map is
`pointStage`, the per-element map of part one). The leftover fragment
`[10,20)` of the first rule — although fully covered by the second rule —
leaks through as an identity copy and merges into the spurious `[0,20)`. -/
theorem c3_split_not_pointwise_image :
    stageApply [⟨⟨100, 110⟩, ⟨0, 10⟩⟩, ⟨⟨200, 210⟩, ⟨10, 20⟩⟩] ⟨0, 20⟩ =
      [⟨0, 20⟩, ⟨100, 110⟩, ⟨200, 210⟩] ∧
    ((stageApply [⟨⟨100, 110⟩, ⟨0, 10⟩⟩, ⟨⟨200, 210⟩, ⟨10, 20⟩⟩] ⟨0, 20⟩).any
      (fun r => r.start ≤ 5 && 5 < r.stop) = true) ∧
    ((List.range 20).all
      (fun v => pointStage [⟨⟨100, 110⟩, ⟨0, 10⟩⟩, ⟨⟨200, 210⟩, ⟨10, 20⟩⟩] v != 5) = true) := by
  decide

/-- Claim C6, counterexample: the triple `(5, 10, 0)` with `length = 0` is
accepted by the rule constructor — it yields the degenerate rule with empty
dest `5..5` and src `10..10` instead of any `MalformedRule` rejection. -/
theorem c6_zero_length_accepted :
    RangeMap.fromTokens [5, 10, 0] = some ⟨⟨5, 5⟩, ⟨10, 10⟩⟩ := by
  decide

/-- Claim C6, amended: rule construction applies no validation at all — any
triple whose `length` is 0 is accepted as a rule with empty source and
destination ranges and is handed on to the split algorithm; no
`MalformedRule` error exists in the code. -/
theorem c6_no_validation (destStart sourceStart : ℕ) (rest : List ℕ) :
    RangeMap.fromTokens (destStart :: sourceStart :: 0 :: rest) =
      some ⟨⟨destStart, destStart⟩, ⟨sourceStart, sourceStart⟩⟩ := by
  simp [RangeMap.fromTokens]

/-- Claim C2, counterexample: on the almanac with no seed intervals the
resolver produces `none` — modelling the `.min().unwrap()` panic — rather
than any `EmptyInputSet` error value (the function's return type `u64` has
no error channel at all). -/
theorem c2_empty_input_panics :
    Almanac2.lowestLocationThatNeedsASeed ⟨[], [], [], [], [], [], [], []⟩ = none := by
  decide

/-- Claim C2, amended: on an empty initial interval set both resolvers never
return a numeric result: the interval set stays empty through every stage
and the final `.min().unwrap()` panics (modelled by `none`); no
`EmptyInputSet` error value is ever produced. -/
theorem c2_empty_seeds_no_result (a2 : Almanac2) (a1 : Almanac)
    (h2 : a2.seeds = []) (h1 : a1.seeds = []) :
    a2.lowestLocationThatNeedsASeed = none ∧ a1.lowestLocationThatNeedsASeed = none := by
  have hf : a2.finalRanges = [] := by
    simp [Almanac2.finalRanges, Almanac2.maps, h2]
  constructor
  · simp [Almanac2.lowestLocationThatNeedsASeed, hf, sortByStart, List.insertionSort]
  · simp [Almanac.lowestLocationThatNeedsASeed, h1]

/-- Witness for the amended Claim C2 on concrete empty-seed almanacs. -/
theorem c2_empty_seeds_no_result_witness :
    Almanac2.lowestLocationThatNeedsASeed
        ⟨[], [⟨⟨50, 52⟩, ⟨98, 100⟩⟩], [], [], [], [], [], []⟩ = none ∧
    Almanac.lowestLocationThatNeedsASeed
        ⟨[], [⟨⟨50, 52⟩, ⟨98, 100⟩⟩], [], [], [], [], [], []⟩ = none :=
  c2_empty_seeds_no_result
    ⟨[], [⟨⟨50, 52⟩, ⟨98, 100⟩⟩], [], [], [], [], [], []⟩
    ⟨[], [⟨⟨50, 52⟩, ⟨98, 100⟩⟩], [], [], [], [], [], []⟩ rfl rfl

/-- Claim C1, counterexample: with seven empty stages (each an identity
stage) and seed intervals `{[0,5), [10,20)}`, the final set is the seed set
itself, whose minimum start is 0 — yet the resolver answers 10, because it
filters out every interval whose start is 0 before taking the minimum. -/
theorem c1_zero_start_excluded :
    Almanac2.lowestLocationThatNeedsASeed
        ⟨[⟨0, 5⟩, ⟨10, 20⟩], [], [], [], [], [], [], []⟩ = some 10 ∧
    ((Almanac2.finalRanges ⟨[⟨0, 5⟩, ⟨10, 20⟩], [], [], [], [], [], [], []⟩).map
        Range64.start).min? = some 0 := by
  decide

/-- Claim C1, amended: whenever the final interval set holds at least one
interval with nonzero start, the resolver returns the least start among the
intervals with nonzero start — intervals starting at 0 are excluded from
the minimum (and when none survive the exclusion the code panics). -/
theorem c1_min_nonzero_start (a : Almanac2) (r : Range64)
    (hr : r ∈ a.finalRanges) (h0 : r.start ≠ 0) :
    ∃ m, a.lowestLocationThatNeedsASeed = some m ∧ m ≤ r.start ∧ m ≠ 0 ∧
      ∃ r' ∈ a.finalRanges, r'.start = m := by
  classical
  set L := ((sortByStart a.finalRanges).filter (fun x => x.start != 0)).map Range64.start
    with hLdef
  have hlow : a.lowestLocationThatNeedsASeed = L.min? := rfl
  have hmem_sort : r ∈ sortByStart a.finalRanges :=
    ((List.perm_insertionSort (fun x y : Range64 => x.start ≤ y.start) a.finalRanges).mem_iff).2 hr
  have hfil : r ∈ (sortByStart a.finalRanges).filter (fun x => x.start != 0) :=
    List.mem_filter.2 ⟨hmem_sort, by simpa using h0⟩
  have hrs : r.start ∈ L := hLdef ▸ List.mem_map.2 ⟨r, hfil, rfl⟩
  obtain ⟨m, hm⟩ : ∃ m, L.min? = some m := by
    cases hmin : L.min? with
    | none =>
      have hLnil : L = [] := List.min?_eq_none_iff.1 hmin
      rw [hLnil] at hrs
      exact absurd hrs (List.not_mem_nil _)
    | some m => exact ⟨m, rfl⟩
  obtain ⟨hmL, hle⟩ := List.min?_eq_some_iff'.1 hm
  obtain ⟨r', hr'f, hr's⟩ := List.mem_map.1 hmL
  have hr'mem : r' ∈ a.finalRanges :=
    ((List.perm_insertionSort (fun x y : Range64 => x.start ≤ y.start) a.finalRanges).mem_iff).1
      (List.mem_filter.1 hr'f).1
  have hr'0 : r'.start ≠ 0 := by
    have := (List.mem_filter.1 hr'f).2
    simpa using this
  exact ⟨m, by rw [hlow, hm], hle _ hrs, hr's ▸ hr'0, r', hr'mem, hr's⟩

/-- Witness for the amended Claim C1 on the pipeline of seven identity
stages with the single seed interval `[7,9)`. -/
theorem c1_min_nonzero_start_witness :
    ∃ m, Almanac2.lowestLocationThatNeedsASeed
        ⟨[⟨7, 9⟩], [], [], [], [], [], [], []⟩ = some m ∧
      m ≤ Range64.start ⟨7, 9⟩ ∧ m ≠ 0 ∧
      ∃ r' ∈ Almanac2.finalRanges ⟨[⟨7, 9⟩], [], [], [], [], [], [], []⟩, r'.start = m :=
  c1_min_nonzero_start ⟨[⟨7, 9⟩], [], [], [], [], [], [], []⟩ ⟨7, 9⟩ (by decide) (by decide)

/-- Helper for Claim C10: `pairUp` produces one pair per two input
elements, which is how `windows(2).step_by(2)` counts. -/
theorem pairUp_length : ∀ l : List ℕ, (pairUp l).length = l.length / 2
  | [] => rfl
  | [_] => by simp [pairUp]
  | _ :: _ :: rest => by
      simp only [pairUp, List.length_cons]
      rw [pairUp_length rest]
      omega

/-- Helper for Claim C10: the i-th pair is `(s_{2i}, s_{2i+1})`. -/
theorem pairUp_getD : ∀ (l : List ℕ) (i : ℕ), i < l.length / 2 →
    (pairUp l).getD i (0, 0) = (l.getD (2 * i) 0, l.getD (2 * i + 1) 0)
  | [], i, h => by simp at h
  | [_], i, h => by
      simp only [List.length_singleton] at h
      omega
  | a :: b :: rest, 0, _ => by simp [pairUp]
  | a :: b :: rest, i + 1, h => by
      have h' : i < rest.length / 2 := by
        simp only [List.length_cons] at h
        omega
      have e1 : (a :: b :: rest).getD (2 * (i + 1)) 0 = rest.getD (2 * i) 0 := by
        have e : 2 * (i + 1) = 2 * i + 1 + 1 := by ring
        rw [e, List.getD_cons_succ, List.getD_cons_succ]
      have e2 : (a :: b :: rest).getD (2 * (i + 1) + 1) 0 = rest.getD (2 * i + 1) 0 := by
        have e : 2 * (i + 1) + 1 = 2 * i + 1 + 1 + 1 := by ring
        rw [e, List.getD_cons_succ, List.getD_cons_succ]
      calc (pairUp (a :: b :: rest)).getD (i + 1) (0, 0)
          = (pairUp rest).getD i (0, 0) := by simp [pairUp]
        _ = (rest.getD (2 * i) 0, rest.getD (2 * i + 1) 0) := pairUp_getD rest i h'
        _ = ((a :: b :: rest).getD (2 * (i + 1)) 0,
              (a :: b :: rest).getD (2 * (i + 1) + 1) 0) := by rw [e1, e2]

/-- Helper for Claim C10: a trailing element after an even-length prefix
contributes nothing. -/
theorem pairUp_append_even : ∀ (l : List ℕ) (x : ℕ), 2 ∣ l.length →
    pairUp (l ++ [x]) = pairUp l
  | [], _, _ => rfl
  | [_], _, h => by
      simp only [List.length_singleton] at h
      omega
  | a :: b :: rest, x, h => by
      have h' : 2 ∣ rest.length := by
        simp only [List.length_cons] at h
        omega
      simp [pairUp, pairUp_append_even rest x h']

/-- Claim C10: converting an `Almanac` to an `Almanac2` turns the seed list
into the intervals `s0..s0+s1, s2..s2+s3, ...` — one interval per
consecutive pair, the i-th pair being `(s_{2i}, s_{2i+1})`, with an odd
trailing seed ignored — and sorts them by start. -/
theorem c10_seed_intervals (a : Almanac) :
    a.toAlmanac2.seeds.Perm
      ((pairUp a.seeds).map (fun p => ⟨p.1, p.1 + p.2⟩ : ℕ × ℕ → Range64)) ∧
    List.Sorted (fun x y : Range64 => x.start ≤ y.start) a.toAlmanac2.seeds ∧
    (pairUp a.seeds).length = a.seeds.length / 2 ∧
    (∀ i, i < a.seeds.length / 2 →
      (pairUp a.seeds).getD i (0, 0) = (a.seeds.getD (2 * i) 0, a.seeds.getD (2 * i + 1) 0)) ∧
    (∀ x, 2 ∣ a.seeds.length → pairUp (a.seeds ++ [x]) = pairUp a.seeds) := by
  refine ⟨?_, ?_, pairUp_length a.seeds, fun i h => pairUp_getD a.seeds i h,
    fun x h => pairUp_append_even a.seeds x h⟩
  · exact List.perm_insertionSort _ _
  · exact List.sorted_insertionSort _ _

/-- Witness for Claim C10 on the seed list `[79, 14, 55, 13, 99]` (odd
length: the trailing 99 is dropped; the two pair intervals come out sorted
by start). -/
theorem c10_seed_intervals_witness :
    (Almanac.toAlmanac2 ⟨[79, 14, 55, 13, 99], [], [], [], [], [], [], []⟩).seeds =
      [⟨55, 68⟩, ⟨79, 93⟩] ∧
    (pairUp [79, 14, 55, 13, 99]).getD 1 (0, 0) = (55, 13) ∧
    pairUp ([79, 14] ++ [55]) = pairUp [79, 14] := by
  refine ⟨by decide, ?_, ?_⟩
  · have h := (c10_seed_intervals
      ⟨[79, 14, 55, 13, 99], [], [], [], [], [], [], []⟩).2.2.2.1 1 (by decide)
    simpa using h
  · exact (c10_seed_intervals ⟨[79, 14], [], [], [], [], [], [], []⟩).2.2.2.2 55 (by decide)
